import Mathlib

/-!
# Chain Coordinator — verification of the affirmation / reorg core

A shallow embedding of `src/chainstate/coordinator/mod.rs` (the Chain
Coordinator of the stacks-blockchain repository), together with proofs about
its affirmation-map handling, reward-cycle-info derivation, divergence
detection and paid-rewards calculation.

Conventions of the embedding:
* fixed-width hashes and ids are opaque `Nat`s (only equality is used);
* Rust `u64` quantities become `Nat` (the coordinator's arithmetic is
  checked in Rust — an overflow aborts rather than wraps, so no modular
  reduction arises on any completed run);
* database / store lookups become explicit environment records holding the
  functions the coordinator calls;
* fallible calls whose only failure mode is propagation are modelled by
  their success payload; failure modes the control flow branches on
  (`InvalidPoxSortition`, `NotPoXAnchorBlock`) are modelled with `Option`
  or `Except`.
-/

/-- Opaque consensus hash identifier. -/
abbrev ConsensusHash := Nat

/-- Opaque Stacks block header hash identifier. -/
abbrev BlockHeaderHash := Nat

/-- Opaque burnchain transaction id. -/
abbrev Txid := Nat

/-- The reward set payload is never inspected by the coordinator, only
carried; it is modelled opaquely. -/
abbrev RewardSet := Nat

/-- `FIRST_BURNCHAIN_CONSENSUS_HASH` genesis sentinel. -/
def FIRST_BURNCHAIN_CONSENSUS_HASH : ConsensusHash := 0

/-- `FIRST_STACKS_BLOCK_HASH` genesis sentinel. -/
def FIRST_STACKS_BLOCK_HASH : BlockHeaderHash := 0

/-- Modelled from the spec: the entries of an affirmation map (the
`AffirmationMapEntry` type lives outside the provided sources; the spec
describes it as the three-valued per-cycle record `{Present, Absent,
Nothing}`). The constructor names follow the coordinator's uses. -/
inductive AffirmationMapEntry where
  | PoxAnchorBlockPresent
  | PoxAnchorBlockAbsent
  | Nothing
deriving DecidableEq, Repr

/-- Modelled from the spec: an affirmation map is an ordered sequence of
entries, one per reward cycle. -/
structure AffirmationMap where
  affirmations : List AffirmationMapEntry
deriving DecidableEq, Repr

namespace AffirmationMap

/-- Modelled from the spec: `len()` of an affirmation map. -/
def len (am : AffirmationMap) : Nat := am.affirmations.length

/-- Modelled from the spec: `at(i)`, the entry at cycle index `i` when
defined. -/
def «at» (am : AffirmationMap) (i : Nat) : Option AffirmationMapEntry :=
  am.affirmations.get? i

/-- Modelled from the spec: `weight()`, the number of `Present` entries. -/
def weight (am : AffirmationMap) : Nat :=
  (am.affirmations.filter (· = AffirmationMapEntry.PoxAnchorBlockPresent)).length

/-- Modelled from the spec: `has_prefix(other)` is true iff `other` equals
the first `other.len()` entries of `self`.  (Renamed: Lean surface-syntax
constraints of this development forbid the source's exact name.) -/
def hasPrefixOf (self other : AffirmationMap) : Bool :=
  self.affirmations.take other.affirmations.length = other.affirmations

/-- Helper for `find_divergence`: the first index at or after `i` where the
remaining (longer) map continues with a non-`Nothing` entry. -/
def findTrailingDivergence :
    List AffirmationMapEntry → Nat → Option Nat
  | [], _ => none
  | b :: bs, i =>
      if b ≠ AffirmationMapEntry.Nothing then some i
      else findTrailingDivergence bs (i + 1)

/-- Helper for `find_divergence`: walks both entry lists in lockstep from
index `i`. -/
def findDivergenceAux :
    List AffirmationMapEntry → List AffirmationMapEntry → Nat → Option Nat
  | [], other, i => findTrailingDivergence other i
  | a :: as_, [], i =>
      if a ≠ AffirmationMapEntry.Nothing then some i
      else findDivergenceAux as_ [] (i + 1)
  | a :: as_, b :: bs, i =>
      if a ≠ b then some i else findDivergenceAux as_ bs (i + 1)

/-- Modelled from the spec: `find_divergence(other)` — the lowest index at
which the two maps disagree, or where the shorter ends while the longer
continues with a non-`Nothing` entry; `none` if one is a prefix of the
other with only `Nothing` extensions. -/
def find_divergence (self other : AffirmationMap) : Option Nat :=
  findDivergenceAux self.affirmations other.affirmations 0

end AffirmationMap

/-! ## `consolidate_affirmation_maps` (mod.rs lines 707-725)

The Rust body is two indexed `for` loops over a growing `am_entries`
vector, with an early `return` inside the first loop.  Each loop is
translated as a tail recursion on the loop index. -/

open AffirmationMapEntry in
/-- First loop of `consolidate_affirmation_maps`: for `i in 0..k`, push
`sortl[i]`; if `i` is out of bounds of `sortl`, return the accumulator
early (`Sum.inl`).  `Sum.inr` is the fall-through to the second loop. -/
def consolidateLoop1 (sortl : List AffirmationMapEntry) (k : Nat) (i : Nat)
    (acc : List AffirmationMapEntry) :
    Sum (List AffirmationMapEntry) (List AffirmationMapEntry) :=
  if i < k then
    if h : i < sortl.length then
      consolidateLoop1 sortl k (i + 1) (acc ++ [sortl.get ⟨i, h⟩])
    else
      Sum.inl acc
  else
    Sum.inr acc
termination_by k - i
decreasing_by omega

/-- Second loop of `consolidate_affirmation_maps`: for `i` from the current
index up to `given.len()`, push `given[i]`. -/
def consolidateLoop2 (given : List AffirmationMapEntry) (i : Nat)
    (acc : List AffirmationMapEntry) : List AffirmationMapEntry :=
  if h : i < given.length then
    consolidateLoop2 given (i + 1) (acc ++ [given.get ⟨i, h⟩])
  else
    acc
termination_by given.length - i
decreasing_by omega

/-- `consolidate_affirmation_maps(given_am, sort_am, last_2_05_rc)`:
`sort_am` becomes the prefix of the result; if `given_am` represents more
reward cycles than `last_2_05_rc`, its affirmations are appended. -/
def consolidate_affirmation_maps (given_am : AffirmationMap)
    (sort_am : AffirmationMap) (last_2_05_rc : Nat) : AffirmationMap :=
  match consolidateLoop1 sort_am.affirmations last_2_05_rc 0 [] with
  | Sum.inl am_entries => AffirmationMap.mk am_entries
  | Sum.inr am_entries =>
      AffirmationMap.mk
        (consolidateLoop2 given_am.affirmations last_2_05_rc am_entries)

/-- The construction the specification describes for consolidation: take
`sort_am[i]` for `i` in `[0, k)` while available — truncating and
returning as soon as `sort_am` runs out — then append `given[i]` for `i`
in `[k, given.len())`. -/
def consolidateSpec (given sortl : List AffirmationMapEntry) (k : Nat) :
    List AffirmationMapEntry :=
  if sortl.length < k then sortl.take k
  else sortl.take k ++ given.drop k

/-! ## Reward cycle info (mod.rs lines 94-102) -/

/-- `PoxAnchorBlockStatus`: the three states of the current reward cycle's
relationship to its PoX anchor. -/
inductive PoxAnchorBlockStatus where
  | SelectedAndKnown (block_hash : BlockHeaderHash) (txid : Txid)
      (reward_set : RewardSet)
  | SelectedAndUnknown (block_hash : BlockHeaderHash) (txid : Txid)
  | NotSelected
deriving DecidableEq, Repr

/-- `RewardCycleInfo` carries the anchor status of a beginning cycle. -/
structure RewardCycleInfo where
  anchor_status : PoxAnchorBlockStatus
deriving DecidableEq, Repr

/-! ## `reinterpret_affirmed_pox_anchor_block_status` (mod.rs 1883-1987)

The Rust method takes the canonical affirmation map, the burn header of the
cycle-starting block, and a `&mut RewardCycleInfo`; it either early-returns
`Ok(Some(missing_anchor_hash))` (leaving `rc_info` untouched) or assigns
the recomputed status and returns `Ok(None)`.  `new_reward_cycle` is
`block_height_to_reward_cycle(header.block_height)`, a pure function of
the header; the embedding takes the cycle directly and returns the pair
(returned option, final anchor status). -/
def reinterpret_affirmed_pox_anchor_block_status
    (canonical_affirmation_map : AffirmationMap) (new_reward_cycle : Nat)
    (anchor_status : PoxAnchorBlockStatus) :
    Option BlockHeaderHash × PoxAnchorBlockStatus :=
  if 0 < new_reward_cycle ∧
      new_reward_cycle ≤ canonical_affirmation_map.len then
    let affirmed_rc := new_reward_cycle - 1
    match canonical_affirmation_map.at affirmed_rc with
    | none =>
        -- unreachable: the guard bounds `affirmed_rc` below the map length
        (none, anchor_status)
    | some affirmation =>
        match anchor_status with
        | PoxAnchorBlockStatus.SelectedAndKnown block_hash txid reward_set =>
            match affirmation with
            | AffirmationMapEntry.PoxAnchorBlockPresent =>
                (none,
                  PoxAnchorBlockStatus.SelectedAndKnown block_hash txid
                    reward_set)
            | AffirmationMapEntry.PoxAnchorBlockAbsent =>
                (none, PoxAnchorBlockStatus.SelectedAndUnknown block_hash txid)
            | AffirmationMapEntry.Nothing =>
                (none, PoxAnchorBlockStatus.NotSelected)
        | PoxAnchorBlockStatus.SelectedAndUnknown block_hash txid =>
            match affirmation with
            | AffirmationMapEntry.PoxAnchorBlockPresent =>
                -- early return: wait for the downloader; rc_info not updated
                (some block_hash,
                  PoxAnchorBlockStatus.SelectedAndUnknown block_hash txid)
            | AffirmationMapEntry.PoxAnchorBlockAbsent =>
                (none, PoxAnchorBlockStatus.SelectedAndUnknown block_hash txid)
            | AffirmationMapEntry.Nothing =>
                (none, PoxAnchorBlockStatus.NotSelected)
        | PoxAnchorBlockStatus.NotSelected =>
            (none, PoxAnchorBlockStatus.NotSelected)
  else
    -- no-op: the computed status is kept as-is
    (none, anchor_status)

/-! ## `get_reward_cycle_info` (mod.rs 524-616)

The function consults the burnchain configuration, the epoch table, the
sortition store (scoped to the sortition tip) and the Stacks chain state.
Those lookups are collected in an environment record; each field is the
success payload of the corresponding call in the Rust body (`?`-propagated
errors only abort the call, which the claims do not concern).
`is_after_pox_sunset_end` takes the burn height with the (height-derived)
epoch already folded in. -/
structure RewardCycleEnv where
  is_reward_cycle_start : Nat → Bool
  is_after_pox_sunset_end : Nat → Bool
  get_chosen_pox_anchor : Option (ConsensusHash × BlockHeaderHash × Txid)
  is_stacks_block_processed : ConsensusHash → BlockHeaderHash → Bool
  get_reward_set : Nat → ConsensusHash × BlockHeaderHash → RewardSet

/-- `get_reward_cycle_info`: `none` if the burn height is not the start of
a reward cycle, otherwise the `RewardCycleInfo` for the beginning cycle. -/
def get_reward_cycle_info (env : RewardCycleEnv) (burn_height : Nat) :
    Option RewardCycleInfo :=
  if env.is_reward_cycle_start burn_height then
    if env.is_after_pox_sunset_end burn_height then
      some (RewardCycleInfo.mk PoxAnchorBlockStatus.NotSelected)
    else
      match env.get_chosen_pox_anchor with
      | some (consensus_hash, stacks_block_hash, txid) =>
          if env.is_stacks_block_processed consensus_hash stacks_block_hash then
            some (RewardCycleInfo.mk
              (PoxAnchorBlockStatus.SelectedAndKnown stacks_block_hash txid
                (env.get_reward_set burn_height
                  (consensus_hash, stacks_block_hash))))
          else
            some (RewardCycleInfo.mk
              (PoxAnchorBlockStatus.SelectedAndUnknown stacks_block_hash txid))
      | none => some (RewardCycleInfo.mk PoxAnchorBlockStatus.NotSelected)
  else
    none

/-! ## `check_chainstate_against_burnchain_affirmations` (mod.rs 1061-1170)

The four affirmation maps and the current reward cycle are read from the
stores at the top of the method; the remainder of the body is a pure
computation over them, embedded here piecewise with the Rust local names. -/

/-- `stacks_changed_reward_cycle_opt` (mod.rs 1102-1108): divergence of the
Stacks-tip AM from the heaviest AM, comparing in the direction of the
longer map. -/
def stacks_changed_reward_cycle_opt
    (stacks_tip_affirmation_map heaviest_am : AffirmationMap) : Option Nat :=
  if heaviest_am.len ≤ stacks_tip_affirmation_map.len then
    stacks_tip_affirmation_map.find_divergence heaviest_am
  else
    heaviest_am.find_divergence stacks_tip_affirmation_map

/-- `sortition_changed_reward_cycle_opt` before promotion (mod.rs
1110-1116). -/
def sortition_changed_reward_cycle_raw
    (sortition_tip_affirmation_map heaviest_am : AffirmationMap) :
    Option Nat :=
  if heaviest_am.len ≤ sortition_tip_affirmation_map.len then
    sortition_tip_affirmation_map.find_divergence heaviest_am
  else
    heaviest_am.find_divergence sortition_tip_affirmation_map

/-- `sortition_changed_reward_cycle_opt` after the canonical-AM promotion
(mod.rs 1118-1135): when no raw divergence exists, the sortition AM is at
least as long as the heaviest AM and no longer than the canonical AM, and
the canonical AM diverges from the sortition AM at a cycle `drc` with
`drc + 1 >= heaviest.len()`, the divergence is promoted to `drc`. -/
def sortition_changed_reward_cycle_opt
    (sortition_tip_affirmation_map heaviest_am
      canonical_affirmation_map : AffirmationMap) : Option Nat :=
  match sortition_changed_reward_cycle_raw sortition_tip_affirmation_map
      heaviest_am with
  | some rc => some rc
  | none =>
      if sortition_tip_affirmation_map.len ≥ heaviest_am.len ∧
          sortition_tip_affirmation_map.len ≤ canonical_affirmation_map.len
      then
        match canonical_affirmation_map.find_divergence
            sortition_tip_affirmation_map with
        | some divergence_rc =>
            if divergence_rc + 1 ≥ heaviest_am.len then some divergence_rc
            else none
        | none => none
      else
        none

/-- `check_chainstate_against_burnchain_affirmations`: the reward cycle at
which the local Stacks/sortition view diverged from the network's heaviest
affirmation map, if any divergence lies strictly before the current reward
cycle of the canonical burnchain tip. -/
def check_chainstate_against_burnchain_affirmations
    (stacks_tip_affirmation_map sortition_tip_affirmation_map heaviest_am
      canonical_affirmation_map : AffirmationMap)
    (current_reward_cycle : Nat) : Option Nat :=
  let lowest_changed_reward_cycle_opt :=
    match stacks_changed_reward_cycle_opt stacks_tip_affirmation_map
        heaviest_am,
      sortition_changed_reward_cycle_opt sortition_tip_affirmation_map
        heaviest_am canonical_affirmation_map with
    | some a, some b => if a < b then some a else some b
    | some a, none => some a
    | none, some b => some b
    | none, none => none
  match lowest_changed_reward_cycle_opt with
  | some changed_reward_cycle =>
      if changed_reward_cycle < current_reward_cycle then
        some changed_reward_cycle
      else
        none
  | none => none

/-! ## `check_pox_anchor_affirmation` (mod.rs 2726-2778) -/

/-- The error constructors of the coordinator's `Error` enum that the
embedded fragments surface. -/
inductive CoordError where
  | NotPoXAnchorBlock
deriving DecidableEq, Repr

/-- `check_pox_anchor_affirmation`: `is_anchor_block` is the burnchain
store's classification of the winner commit; `reward_cycle` is the commit
metadata's anchor-block reward cycle.  Missing heaviest-AM entries default
to `Present` via `unwrap_or` in the source. -/
def check_pox_anchor_affirmation (is_anchor_block : Bool)
    (heaviest_am : AffirmationMap) (reward_cycle : Nat)
    (pox_anchor : BlockHeaderHash) :
    Except CoordError (Option BlockHeaderHash) :=
  if is_anchor_block then
    if (heaviest_am.at reward_cycle).getD
        AffirmationMapEntry.PoxAnchorBlockPresent =
        AffirmationMapEntry.PoxAnchorBlockPresent then
      Except.ok (some pox_anchor)
    else
      Except.ok none
  else
    Except.error CoordError.NotPoXAnchorBlock

/-! ## `calculate_paid_rewards` (mod.rs 618-649)

Burnchain operation model: only `LeaderBlockCommit` carries data the
function reads (`commit_outs`, `burn_fee`); every other variant of
`BlockstackOperationType` is inert here and collapses to `Other`.
`PoxAddress` is opaque except for the `is_burn()` test, modelled by a
dedicated `Burn` constructor.

The Rust function accumulates into a `std::collections::HashMap` and emits
`reward_recipients.into_iter().collect()`.  A `HashMap`'s iteration order
is implementation-defined (the hasher is randomly seeded per map), so the
embedding passes the iteration order explicitly: `hmIntoIter` stands for
`into_iter().collect()` and any run of the program realises some function
that permutes the stored pairs. -/
inductive PoxAddress where
  | Burn
  | Standard (n : Nat)
deriving DecidableEq, Repr

/-- `PoxAddress::is_burn()`. -/
def PoxAddress.is_burn : PoxAddress → Bool
  | PoxAddress.Burn => true
  | PoxAddress.Standard _ => false

/-- The fields of `LeaderBlockCommitOp` that `calculate_paid_rewards`
reads. -/
structure LeaderBlockCommitOp where
  commit_outs : List PoxAddress
  burn_fee : Nat
deriving DecidableEq, Repr

/-- `BlockstackOperationType`, collapsed to the one data-carrying variant
the paid-rewards calculator inspects. -/
inductive BlockstackOperationType where
  | LeaderBlockCommit (commit : LeaderBlockCommitOp)
  | Other
deriving DecidableEq, Repr

/-- `PaidRewards`: the pox-payout vector and the burn amount. -/
structure PaidRewards where
  pox : List (PoxAddress × Nat)
  burns : Nat
deriving DecidableEq, Repr

/-- The `HashMap` contents as an association list with unique keys:
`get_mut`-then-add when the key is present, `insert` otherwise. -/
def hmAddOrInsert (m : List (PoxAddress × Nat)) (addr : PoxAddress)
    (amt : Nat) : List (PoxAddress × Nat) :=
  match m with
  | [] => [(addr, amt)]
  | (a, v) :: rest =>
      if a = addr then (a, v + amt) :: rest
      else (a, v) :: hmAddOrInsert rest addr amt

/-- One iteration of the `for op in ops` loop: distribute
`burn_fee / commit_outs.len()` over the commit outputs, burns into the
burn accumulator and the rest into the recipients map. -/
def calcPaidRewardsStep (acc : List (PoxAddress × Nat) × Nat)
    (op : BlockstackOperationType) : List (PoxAddress × Nat) × Nat :=
  match op with
  | BlockstackOperationType.LeaderBlockCommit commit =>
      if commit.commit_outs.length = 0 then acc
      else
        let amt_per_address := commit.burn_fee / commit.commit_outs.length
        commit.commit_outs.foldl
          (fun acc2 addr =>
            if addr.is_burn then (acc2.1, acc2.2 + amt_per_address)
            else (hmAddOrInsert acc2.1 addr amt_per_address, acc2.2))
          acc
  | BlockstackOperationType.Other => acc

/-- `calculate_paid_rewards(ops)`; `hmIntoIter` is the iteration order the
run's `HashMap` happens to produce (always a permutation of the stored
pairs). -/
def calculate_paid_rewards
    (hmIntoIter : List (PoxAddress × Nat) → List (PoxAddress × Nat))
    (ops : List BlockstackOperationType) : PaidRewards :=
  let st := ops.foldl calcPaidRewardsStep ([], 0)
  { pox := hmIntoIter st.1, burns := st.2 }

/-! ## `find_highest_stacks_block_with_compatible_affirmation_map`
(mod.rs 900-1050)

Chainstate and sortition lookups are collected in an environment record:
* `stacks_tip_am ch bhh` is `inner_static_get_stacks_tip_affirmation_map`
  for a header, `none` standing for the `InvalidPoxSortition` skip;
* `is_block_compatible am heaviest` is
  `is_block_compatible_with_affirmation_map`, `none` again standing for
  `InvalidPoxSortition`;
* `ancestor_snapshot h` is `get_ancestor_snapshot_tx` at burn height `h`
  from the sortition tip, `none` covering both the no-ancestor case and
  `InvalidPoxSortition`.
Fatal database errors abort the whole call in Rust and are outside the
claims, so they are not modelled. -/
structure StacksHeaderInfo where
  consensus_hash : ConsensusHash
  block_hash : BlockHeaderHash
  stacks_block_height : Nat
  burn_header_height : Nat
deriving DecidableEq, Repr

/-- The snapshot fields the ancestry check reads. -/
structure BlockSnapshot where
  sortition : Bool
  winning_stacks_block_hash : BlockHeaderHash
  consensus_hash : ConsensusHash
deriving DecidableEq, Repr

structure FindHighestEnv where
  max_header_height : Nat
  max_affirmation_weight_at_height : Nat → Nat
  headers_at_height_and_weight : Nat → Nat → List StacksHeaderInfo
  stacks_tip_am : ConsensusHash → BlockHeaderHash → Option AffirmationMap
  is_block_compatible : AffirmationMap → AffirmationMap → Option Bool
  ancestor_snapshot : Nat → Option BlockSnapshot

/-- The `for hdr in all_headers` body: skip on unobtainable AM, on
incompatibility with the heaviest AM, and on failing the winning-sortition
ancestry check; otherwise return the header's tip triple. -/
def scanHeaders (env : FindHighestEnv) (heaviest_am : AffirmationMap) :
    List StacksHeaderInfo → Option (ConsensusHash × BlockHeaderHash × Nat)
  | [] => none
  | hdr :: rest =>
      match env.stacks_tip_am hdr.consensus_hash hdr.block_hash with
      | none => scanHeaders env heaviest_am rest
      | some am =>
          match env.is_block_compatible am heaviest_am with
          | none => scanHeaders env heaviest_am rest
          | some compat =>
              if !compat then scanHeaders env heaviest_am rest
              else
                match env.ancestor_snapshot hdr.burn_header_height with
                | none => scanHeaders env heaviest_am rest
                | some ancestor_sn =>
                    if !ancestor_sn.sortition ∨
                        ancestor_sn.winning_stacks_block_hash ≠
                          hdr.block_hash ∨
                        ancestor_sn.consensus_hash ≠ hdr.consensus_hash then
                      scanHeaders env heaviest_am rest
                    else
                      some (hdr.consensus_hash, hdr.block_hash,
                        hdr.stacks_block_height)

/-- The `while search_weight >= 0` loop at a fixed height: `wfuel` is one
more than the current weight, so weights `wfuel-1, …, 0` are visited in
descending order. -/
def scanWeights (env : FindHighestEnv) (heaviest_am : AffirmationMap)
    (height : Nat) :
    Nat → Option (ConsensusHash × BlockHeaderHash × Nat)
  | 0 => none
  | w + 1 =>
      match scanHeaders env heaviest_am
          (env.headers_at_height_and_weight height w) with
      | some r => some r
      | none => scanWeights env heaviest_am height w

/-- The outer height loop: `hfuel` is one more than the current search
height, so heights `hfuel-1, …, 0` are visited in descending order. -/
def scanHeights (env : FindHighestEnv) (heaviest_am : AffirmationMap) :
    Nat → Option (ConsensusHash × BlockHeaderHash × Nat)
  | 0 => none
  | h + 1 =>
      match scanWeights env heaviest_am h
          (env.max_affirmation_weight_at_height h + 1) with
      | some r => some r
      | none => scanHeights env heaviest_am h

/-- `find_highest_stacks_block_with_compatible_affirmation_map`: descend
from the maximum header height; on total failure return the genesis
sentinel. -/
def find_highest_stacks_block_with_compatible_affirmation_map
    (env : FindHighestEnv) (heaviest_am : AffirmationMap) :
    ConsensusHash × BlockHeaderHash × Nat :=
  match scanHeights env heaviest_am (env.max_header_height + 1) with
  | some r => r
  | none => (FIRST_BURNCHAIN_CONSENSUS_HASH, FIRST_STACKS_BLOCK_HASH, 0)

/-! ## Characterisation of the consolidation loops -/

set_option maxRecDepth 4000

/-- Closed form of the first consolidation loop, for any starting index. -/
theorem consolidateLoop1_eq (sortl : List AffirmationMapEntry) (k : Nat) :
    ∀ n i acc, k - i = n →
    consolidateLoop1 sortl k i acc =
      (if k ≤ i then Sum.inr acc
       else if sortl.length < k then Sum.inl (acc ++ sortl.drop i)
       else Sum.inr (acc ++ (sortl.drop i).take (k - i))) := by
  intro n
  induction n with
  | zero =>
      intro i acc h
      have hki : k ≤ i := by omega
      rw [consolidateLoop1]
      rw [if_neg (Nat.not_lt.mpr hki), if_pos hki]
  | succ n ih =>
      intro i acc h
      have hik : i < k := by omega
      have hik' : ¬ k ≤ i := by omega
      rw [consolidateLoop1]
      by_cases hlen : i < sortl.length
      · rw [if_pos hik, dif_pos hlen, ih (i + 1) _ (by omega),
          List.drop_eq_getElem_cons hlen]
        by_cases h2 : sortl.length < k
        · have h4 : ¬ k ≤ i + 1 := by omega
          simp [h2, hik', h4, -List.getElem_cons_drop]
        · by_cases h3 : k ≤ i + 1
          · have hk1 : k - i = 1 := by omega
            have hk0 : k - (i + 1) = 0 := by omega
            simp [h2, h3, hik', hk1, hk0, -List.getElem_cons_drop]
          · have hks : k - i = (k - (i + 1)) + 1 := by omega
            simp [h2, h3, hik', hks, List.take_succ_cons,
              -List.getElem_cons_drop]
      · have h2 : sortl.length < k := by omega
        have hnil : List.drop i sortl = [] := List.drop_eq_nil_of_le (by omega)
        rw [if_pos hik, dif_neg hlen]
        simp [h2, hik', hnil]

/-- Closed form of the second consolidation loop. -/
theorem consolidateLoop2_eq (given : List AffirmationMapEntry) :
    ∀ n i acc, given.length - i = n →
    consolidateLoop2 given i acc = acc ++ given.drop i := by
  intro n
  induction n with
  | zero =>
      intro i acc h
      have hle : given.length ≤ i := by omega
      rw [consolidateLoop2]
      rw [dif_neg (Nat.not_lt.mpr hle), List.drop_eq_nil_of_le hle,
        List.append_nil]
  | succ n ih =>
      intro i acc h
      have hlen : i < given.length := by omega
      rw [consolidateLoop2, dif_pos hlen, ih (i + 1) _ (by omega),
        List.drop_eq_getElem_cons hlen]
      simp

/-- `consolidate_affirmation_maps` computes exactly the spec-described
construction (shared helper for the consolidation claims). -/
theorem consolidate_eq (given_am sort_am : AffirmationMap) (k : Nat) :
    consolidate_affirmation_maps given_am sort_am k =
      AffirmationMap.mk
        (consolidateSpec given_am.affirmations sort_am.affirmations k) := by
  unfold consolidate_affirmation_maps consolidateSpec
  rw [consolidateLoop1_eq sort_am.affirmations k (k - 0) 0 [] rfl]
  by_cases hk : k = 0
  · subst hk
    rw [if_pos (Nat.le_refl 0)]
    dsimp only
    rw [consolidateLoop2_eq given_am.affirmations
      (given_am.affirmations.length - 0) 0 [] rfl]
    simp
  · rw [if_neg (by omega : ¬ k ≤ 0)]
    by_cases hlen : sort_am.affirmations.length < k
    · rw [if_pos hlen]
      dsimp only
      rw [if_pos hlen, List.drop_zero, List.nil_append,
        List.take_of_length_le (by omega)]
    · rw [if_neg hlen]
      dsimp only
      rw [if_neg hlen, List.drop_zero, List.nil_append, Nat.sub_zero]
      rw [consolidateLoop2_eq given_am.affirmations
        (given_am.affirmations.length - k) k _ rfl]

/-- The idempotence core of the consolidation: consolidating an
already-consolidated entry list against the same sortition entries and
boundary changes nothing. -/
theorem consolidateSpec_idem (a b : List AffirmationMapEntry) (k : Nat) :
    consolidateSpec (consolidateSpec a b k) b k = consolidateSpec a b k := by
  unfold consolidateSpec
  by_cases h : b.length < k
  · simp [h]
  · have hk : k ≤ b.length := by omega
    have hlen : (b.take k).length = k := by
      simp [List.length_take, Nat.min_eq_left hk]
    simp only [if_neg h]
    rw [List.drop_left' hlen]

/-- C3: for every pair of affirmation maps `given` and `sort_am` and every
boundary index `k`, `consolidate_affirmation_maps(given, sort_am, k)`
equals the map built by taking `sort_am[i]` for each `i` in `[0, k)` while
available — truncating and returning as soon as `sort_am` runs out — and
then appending `given[i]` for each `i` in `[k, given.len())`. -/
theorem claim_C3_consolidate_matches_spec
    (given_am sort_am : AffirmationMap) (k : Nat) :
    consolidate_affirmation_maps given_am sort_am k =
      AffirmationMap.mk
        (consolidateSpec given_am.affirmations sort_am.affirmations k) :=
  consolidate_eq given_am sort_am k

/-- C4: re-consolidating an already-consolidated affirmation map against
the same sortition map and boundary is a no-op:
`consolidate(consolidate(A, B, k), B, k) = consolidate(A, B, k)`. -/
theorem claim_C4_consolidate_idempotent (a b : AffirmationMap) (k : Nat) :
    consolidate_affirmation_maps (consolidate_affirmation_maps a b k) b k =
      consolidate_affirmation_maps a b k := by
  rw [consolidate_eq a b k, consolidate_eq]
  dsimp only
  rw [consolidateSpec_idem]

/-! ## Claims about the affirmation reinterpretation -/

/-- The effective-status table of spec §4.3, read off the spec's words: the
returned option is the missing-anchor hash in the one blocking row, and the
status is rewritten per the table (the blocking row leaves it unchanged). -/
def affirmationReinterpretTable (affirmation : AffirmationMapEntry)
    (local_status : PoxAnchorBlockStatus) :
    Option BlockHeaderHash × PoxAnchorBlockStatus :=
  match local_status, affirmation with
  | PoxAnchorBlockStatus.SelectedAndKnown bh txid rs,
      AffirmationMapEntry.PoxAnchorBlockPresent =>
      (none, PoxAnchorBlockStatus.SelectedAndKnown bh txid rs)
  | PoxAnchorBlockStatus.SelectedAndKnown bh txid _,
      AffirmationMapEntry.PoxAnchorBlockAbsent =>
      (none, PoxAnchorBlockStatus.SelectedAndUnknown bh txid)
  | PoxAnchorBlockStatus.SelectedAndKnown _ _ _,
      AffirmationMapEntry.Nothing =>
      (none, PoxAnchorBlockStatus.NotSelected)
  | PoxAnchorBlockStatus.SelectedAndUnknown bh txid,
      AffirmationMapEntry.PoxAnchorBlockPresent =>
      (some bh, PoxAnchorBlockStatus.SelectedAndUnknown bh txid)
  | PoxAnchorBlockStatus.SelectedAndUnknown bh txid,
      AffirmationMapEntry.PoxAnchorBlockAbsent =>
      (none, PoxAnchorBlockStatus.SelectedAndUnknown bh txid)
  | PoxAnchorBlockStatus.SelectedAndUnknown _ _,
      AffirmationMapEntry.Nothing =>
      (none, PoxAnchorBlockStatus.NotSelected)
  | PoxAnchorBlockStatus.NotSelected, _ =>
      (none, PoxAnchorBlockStatus.NotSelected)

/-- C1: when `0 < C ≤ len(canonical AM)`, the reinterpretation returns the
missing anchor-block hash iff the local status is `SelectedAndUnknown` and
the canonical entry for cycle `C-1` is `Present`; in every other case it
returns `none` and rewrites the status exactly per the spec's table
(captured by `affirmationReinterpretTable`, which also fixes the returned
hash to be the selected block's hash). -/
theorem claim_C1_reinterpret_table (cam : AffirmationMap) (C : Nat)
    (st : PoxAnchorBlockStatus) (e : AffirmationMapEntry)
    (h1 : 0 < C) (h2 : C ≤ cam.len) (he : cam.at (C - 1) = some e) :
    reinterpret_affirmed_pox_anchor_block_status cam C st =
        affirmationReinterpretTable e st ∧
      ((reinterpret_affirmed_pox_anchor_block_status cam C st).1.isSome ↔
        (∃ bh txid, st = PoxAnchorBlockStatus.SelectedAndUnknown bh txid) ∧
          e = AffirmationMapEntry.PoxAnchorBlockPresent) := by
  have hmain :
      reinterpret_affirmed_pox_anchor_block_status cam C st =
        affirmationReinterpretTable e st := by
    unfold reinterpret_affirmed_pox_anchor_block_status
    rw [if_pos ⟨h1, h2⟩]
    dsimp only
    rw [he]
    cases st <;> cases e <;> rfl
  refine ⟨hmain, ?_⟩
  rw [hmain]
  cases st <;> cases e <;>
    simp [affirmationReinterpretTable]

/-- Witness for C1: a concrete blocked instance — cycle 1 against a
one-entry `Present` canonical map with a locally-unknown selected anchor. -/
theorem claim_C1_witness :
    reinterpret_affirmed_pox_anchor_block_status
        (AffirmationMap.mk [AffirmationMapEntry.PoxAnchorBlockPresent]) 1
        (PoxAnchorBlockStatus.SelectedAndUnknown 7 3) =
      affirmationReinterpretTable AffirmationMapEntry.PoxAnchorBlockPresent
        (PoxAnchorBlockStatus.SelectedAndUnknown 7 3) :=
  (claim_C1_reinterpret_table
    (AffirmationMap.mk [AffirmationMapEntry.PoxAnchorBlockPresent]) 1
    (PoxAnchorBlockStatus.SelectedAndUnknown 7 3)
    AffirmationMapEntry.PoxAnchorBlockPresent
    (by decide) (by decide) (by decide)).1

/-- C10: when the reward cycle `C` is `0` or exceeds the canonical map's
length, the reinterpretation returns `Ok(None)` and the reward-cycle info
keeps its prior anchor status unchanged. -/
theorem claim_C10_reinterpret_out_of_range (cam : AffirmationMap) (C : Nat)
    (st : PoxAnchorBlockStatus) (h : C = 0 ∨ cam.len < C) :
    reinterpret_affirmed_pox_anchor_block_status cam C st = (none, st) := by
  unfold reinterpret_affirmed_pox_anchor_block_status
  rw [if_neg]
  intro hcontra
  rcases h with h0 | hlen
  · omega
  · omega

/-- Witness for C10: cycle 2 against a one-entry canonical map leaves a
`SelectedAndKnown` status untouched. -/
theorem claim_C10_witness :
    reinterpret_affirmed_pox_anchor_block_status
        (AffirmationMap.mk [AffirmationMapEntry.PoxAnchorBlockAbsent]) 2
        (PoxAnchorBlockStatus.SelectedAndKnown 5 6 9) =
      (none, PoxAnchorBlockStatus.SelectedAndKnown 5 6 9) :=
  claim_C10_reinterpret_out_of_range
    (AffirmationMap.mk [AffirmationMapEntry.PoxAnchorBlockAbsent]) 2
    (PoxAnchorBlockStatus.SelectedAndKnown 5 6 9)
    (Or.inr (by decide))

/-! ## Claim about reward-cycle-info derivation -/

/-- The anchor status spec §4.2 prescribes for a cycle-starting block:
sunset forces `NotSelected`; a chosen and locally-processed anchor yields
`SelectedAndKnown` with the provider's reward set; a chosen but
unprocessed anchor yields `SelectedAndUnknown`; no chosen anchor yields
`NotSelected`. -/
def rewardCycleStatusSpec (env : RewardCycleEnv) (burn_height : Nat) :
    PoxAnchorBlockStatus :=
  if env.is_after_pox_sunset_end burn_height then
    PoxAnchorBlockStatus.NotSelected
  else
    match env.get_chosen_pox_anchor with
    | some (consensus_hash, stacks_block_hash, txid) =>
        if env.is_stacks_block_processed consensus_hash stacks_block_hash then
          PoxAnchorBlockStatus.SelectedAndKnown stacks_block_hash txid
            (env.get_reward_set burn_height (consensus_hash, stacks_block_hash))
        else
          PoxAnchorBlockStatus.SelectedAndUnknown stacks_block_hash txid
    | none => PoxAnchorBlockStatus.NotSelected

/-- `get_reward_cycle_info` as a single equation: `some` exactly on
cycle-start heights, carrying the spec-prescribed status. -/
theorem get_reward_cycle_info_eq (env : RewardCycleEnv) (burn_height : Nat) :
    get_reward_cycle_info env burn_height =
      (if env.is_reward_cycle_start burn_height then
        some (RewardCycleInfo.mk (rewardCycleStatusSpec env burn_height))
      else none) := by
  unfold get_reward_cycle_info rewardCycleStatusSpec
  by_cases hstart : env.is_reward_cycle_start burn_height
  · rw [if_pos hstart, if_pos hstart]
    by_cases hsunset : env.is_after_pox_sunset_end burn_height
    · rw [if_pos hsunset, if_pos hsunset]
    · rw [if_neg hsunset, if_neg hsunset]
      cases env.get_chosen_pox_anchor with
      | none => rfl
      | some anchor =>
          rcases anchor with ⟨ch, bhh, txid⟩
          dsimp only
          by_cases hproc : env.is_stacks_block_processed ch bhh
          · rw [if_pos hproc, if_pos hproc]
          · rw [if_neg hproc, if_neg hproc]
  · rw [if_neg hstart, if_neg hstart]

/-- C5: `get_reward_cycle_info` returns `some` iff the burn height starts a
reward cycle, and in that case the anchor status is exactly the one spec
§4.2 prescribes (sunset ⇒ `NotSelected`; chosen and processed ⇒
`SelectedAndKnown` with the provider's reward set; chosen but unprocessed ⇒
`SelectedAndUnknown`; not chosen ⇒ `NotSelected`). -/
theorem claim_C5_reward_cycle_info (env : RewardCycleEnv) (burn_height : Nat) :
    ((get_reward_cycle_info env burn_height).isSome ↔
      env.is_reward_cycle_start burn_height = true) ∧
    (∀ rci, get_reward_cycle_info env burn_height = some rci →
      rci.anchor_status = rewardCycleStatusSpec env burn_height) := by
  rw [get_reward_cycle_info_eq]
  by_cases hstart : env.is_reward_cycle_start burn_height
  · constructor
    · simp [hstart]
    · intro rci hrci
      rw [if_pos hstart] at hrci
      injection hrci with hrci
      rw [← hrci]
  · constructor
    · simp [hstart]
    · intro rci hrci
      rw [if_neg hstart] at hrci
      cases hrci

/-- A concrete environment for the C5 witness: height 5 starts a cycle,
no sunset, anchor `(1, 2, 3)` chosen and processed, reward set `9`. -/
def envC5 : RewardCycleEnv where
  is_reward_cycle_start := fun h => h = 5
  is_after_pox_sunset_end := fun _ => false
  get_chosen_pox_anchor := some (1, 2, 3)
  is_stacks_block_processed := fun _ _ => true
  get_reward_set := fun _ _ => 9

/-- Witness for C5: at height 5 the concrete environment yields
`SelectedAndKnown 2 3 9`, matching the spec-prescribed status. -/
theorem claim_C5_witness :
    (RewardCycleInfo.mk
        (PoxAnchorBlockStatus.SelectedAndKnown 2 3 9)).anchor_status =
      rewardCycleStatusSpec envC5 5 :=
  (claim_C5_reward_cycle_info envC5 5).2
    (RewardCycleInfo.mk (PoxAnchorBlockStatus.SelectedAndKnown 2 3 9)) rfl

/-! ## Claims about anchor-block affirmation checking -/

/-- Counterexample to C7 as stated: with an *empty* heaviest affirmation
map (which records `Present` at no cycle at all), an anchor-block
candidate at reward cycle 0 is still returned as affirmed, because the
source defaults a missing entry to `Present` via
`.unwrap_or(&AffirmationMapEntry::PoxAnchorBlockPresent)` (mod.rs
2760-2763).  So "returns Some(candidate) iff the heaviest AM records
Present at the candidate's cycle" fails. -/
theorem claim_C7_counterexample :
    check_pox_anchor_affirmation true (AffirmationMap.mk []) 0 42 =
        Except.ok (some 42) ∧
      (AffirmationMap.mk []).at 0 ≠
        some AffirmationMapEntry.PoxAnchorBlockPresent := by
  constructor
  · rfl
  · intro hcontra
    cases hcontra

/-- C7 (amended): for a candidate the burnchain store classifies as an
anchor block, `check_pox_anchor_affirmation` returns `Some(candidate)` iff
the heaviest AM's entry at the candidate's cycle is `Present` **or the
cycle lies beyond the map** (missing entries default to `Present`); it
returns `None` iff that entry is `Absent` or `Nothing`; a candidate not so
classified yields the `NotPoXAnchorBlock` error. -/
theorem claim_C7_amended_affirmation (is_anchor : Bool)
    (heaviest_am : AffirmationMap) (reward_cycle : Nat)
    (pox_anchor : BlockHeaderHash) :
    (is_anchor = true →
      ((check_pox_anchor_affirmation is_anchor heaviest_am reward_cycle
            pox_anchor = Except.ok (some pox_anchor)) ↔
        (heaviest_am.at reward_cycle =
            some AffirmationMapEntry.PoxAnchorBlockPresent ∨
          heaviest_am.at reward_cycle = none)) ∧
      ((check_pox_anchor_affirmation is_anchor heaviest_am reward_cycle
            pox_anchor = Except.ok none) ↔
        (heaviest_am.at reward_cycle =
            some AffirmationMapEntry.PoxAnchorBlockAbsent ∨
          heaviest_am.at reward_cycle =
            some AffirmationMapEntry.Nothing))) ∧
    (is_anchor = false →
      check_pox_anchor_affirmation is_anchor heaviest_am reward_cycle
          pox_anchor = Except.error CoordError.NotPoXAnchorBlock) := by
  constructor
  · intro hanchor
    subst hanchor
    unfold check_pox_anchor_affirmation
    rcases hat : heaviest_am.at reward_cycle with _ | e
    · simp [hat]
    · cases e <;> simp [hat]
  · intro hanchor
    subst hanchor
    rfl

/-- Witness for C7 (amended): an `Absent` entry at the candidate's cycle
makes an anchor-classified candidate be ignored. -/
theorem claim_C7_amended_witness :
    check_pox_anchor_affirmation true
        (AffirmationMap.mk [AffirmationMapEntry.PoxAnchorBlockAbsent]) 0 5 =
      Except.ok none :=
  (((claim_C7_amended_affirmation true
      (AffirmationMap.mk [AffirmationMapEntry.PoxAnchorBlockAbsent]) 0 5).1
    rfl).2).mpr (Or.inl rfl)

/-! ## Claims about divergence detection -/

/-- Sortition AM for the C2 counterexample: `[Present]`. -/
def amC2sort : AffirmationMap :=
  AffirmationMap.mk [AffirmationMapEntry.PoxAnchorBlockPresent]

/-- Heaviest AM for the C2 counterexample: `[Present, Nothing]` — the
sortition AM is a strict prefix of it. -/
def amC2heavy : AffirmationMap :=
  AffirmationMap.mk [AffirmationMapEntry.PoxAnchorBlockPresent,
    AffirmationMapEntry.Nothing]

/-- Stacks-tip AM for the C2 counterexample, agreeing with the heaviest. -/
def amC2stacks : AffirmationMap :=
  AffirmationMap.mk [AffirmationMapEntry.PoxAnchorBlockPresent,
    AffirmationMapEntry.Nothing]

/-- Canonical AM for the C2 counterexample: `[Present, Present, Present]`
— it has further (non-`Nothing`) entries beyond the sortition AM, first
at cycle 1. -/
def amC2canon : AffirmationMap :=
  AffirmationMap.mk [AffirmationMapEntry.PoxAnchorBlockPresent,
    AffirmationMapEntry.PoxAnchorBlockPresent,
    AffirmationMapEntry.PoxAnchorBlockPresent]

/-- Counterexample to C2 as stated: the sortition AM `[Present]` is a
strict prefix of the heaviest AM `[Present, Nothing]`, the canonical AM
`[Present, Present, Present]` has further entries (first divergence from
the sortition AM at cycle 1, below the current cycle 5), yet the function
returns `none` — no promotion happens, because the source gates promotion
on `sortition_tip_affirmation_map.len() >= heaviest_am.len()`
(mod.rs 1119), which a strict prefix never satisfies. -/
theorem claim_C2_counterexample :
    amC2heavy.hasPrefixOf amC2sort = true ∧
    amC2sort.len < amC2heavy.len ∧
    stacks_changed_reward_cycle_opt amC2stacks amC2heavy = none ∧
    sortition_changed_reward_cycle_raw amC2sort amC2heavy = none ∧
    amC2canon.find_divergence amC2sort = some 1 ∧
    (1 : Nat) < 5 ∧
    check_chainstate_against_burnchain_affirmations amC2stacks amC2sort
      amC2heavy amC2canon 5 = none := by
  decide

/-- C2 (amended): `check_chainstate_against_burnchain_affirmations`
returns `Some(C*)` only when `C*` is below the current reward cycle;
when both the Stacks-tip and the (promotion-adjusted) sortition-tip
divergence cycles exist, the result is their minimum filtered by that
bound; and the promotion applies when the raw sortition divergence is
absent, the sortition AM is **at least as long as** the heaviest AM and
no longer than the canonical AM, and the canonical AM diverges from the
sortition AM at a cycle `d` with `d + 1 ≥ heaviest.len()`. -/
theorem claim_C2_amended_divergence
    (s so h c : AffirmationMap) (cur : Nat) :
    (∀ x, check_chainstate_against_burnchain_affirmations s so h c cur =
        some x → x < cur) ∧
    (∀ a b, stacks_changed_reward_cycle_opt s h = some a →
      sortition_changed_reward_cycle_opt so h c = some b →
      check_chainstate_against_burnchain_affirmations s so h c cur =
        (if min a b < cur then some (min a b) else none)) ∧
    (∀ d, sortition_changed_reward_cycle_raw so h = none →
      h.len ≤ so.len → so.len ≤ c.len →
      c.find_divergence so = some d → h.len ≤ d + 1 →
      sortition_changed_reward_cycle_opt so h c = some d) := by
  refine ⟨?_, ?_, ?_⟩
  · intro x hx
    unfold check_chainstate_against_burnchain_affirmations at hx
    rcases hs : stacks_changed_reward_cycle_opt s h with _ | a
    · rcases ho : sortition_changed_reward_cycle_opt so h c with _ | b
      · rw [hs, ho] at hx
        exact Option.noConfusion hx
      · rw [hs, ho] at hx
        dsimp only at hx
        split_ifs at hx with hc
        injection hx with hx
        omega
    · rcases ho : sortition_changed_reward_cycle_opt so h c with _ | b
      · rw [hs, ho] at hx
        dsimp only at hx
        split_ifs at hx with hc
        injection hx with hx
        omega
      · rw [hs, ho] at hx
        dsimp only at hx
        by_cases hab : a < b
        all_goals
          first
          | rw [if_pos hab] at hx
          | rw [if_neg hab] at hx
        all_goals dsimp only at hx
        all_goals split_ifs at hx with hc
        all_goals (injection hx with hx; omega)
  · intro a b ha hb
    unfold check_chainstate_against_burnchain_affirmations
    rw [ha, hb]
    dsimp only
    by_cases hab : a < b
    · rw [if_pos hab]
      have hmin : min a b = a := by omega
      rw [hmin]
    · rw [if_neg hab]
      have hmin : min a b = b := by omega
      rw [hmin]
  · intro d hraw hlen1 hlen2 hdiv hple
    unfold sortition_changed_reward_cycle_opt
    rw [hraw]
    dsimp only
    rw [if_pos ⟨hlen1, hlen2⟩, hdiv]
    dsimp only
    rw [if_pos hple]

/-- Stacks-tip AM for the C2 witness: `[Absent]`. -/
def amC2Wstacks : AffirmationMap :=
  AffirmationMap.mk [AffirmationMapEntry.PoxAnchorBlockAbsent]

/-- Sortition AM for the C2 witness: `[Present]`. -/
def amC2Wsort : AffirmationMap :=
  AffirmationMap.mk [AffirmationMapEntry.PoxAnchorBlockPresent]

/-- Heaviest AM for the C2 witness: `[Present]`. -/
def amC2Wheavy : AffirmationMap :=
  AffirmationMap.mk [AffirmationMapEntry.PoxAnchorBlockPresent]

/-- Canonical AM for the C2 witness: `[Present, Present]`. -/
def amC2Wcanon : AffirmationMap :=
  AffirmationMap.mk [AffirmationMapEntry.PoxAnchorBlockPresent,
    AffirmationMapEntry.PoxAnchorBlockPresent]

/-- Witness for C2 (amended): the Stacks divergence (cycle 0) and the
promoted sortition divergence (cycle 1) both exist, and the minimum 0 is
returned since it is below the current cycle 5. -/
theorem claim_C2_amended_witness :
    check_chainstate_against_burnchain_affirmations amC2Wstacks amC2Wsort
      amC2Wheavy amC2Wcanon 5 = some 0 := by
  have h2 := (claim_C2_amended_divergence amC2Wstacks amC2Wsort amC2Wheavy
    amC2Wcanon 5).2.1 0 1 (by decide) (by decide)
  rw [h2]
  decide

/-! ## Claims about the paid-rewards calculator -/

/-- Operation list for the C8 counterexample: one commit paying two
distinct standard addresses. -/
def opsC8 : List BlockstackOperationType :=
  [BlockstackOperationType.LeaderBlockCommit
    (LeaderBlockCommitOp.mk [PoxAddress.Standard 1, PoxAddress.Standard 2] 10)]

/-- Counterexample to C8 as stated: `id` and `List.reverse` are both
orders a `HashMap` iteration may realise (each a permutation of the
stored pairs), yet they give pox-payout vectors in different orders for
the same operation list.  The order of
`reward_recipients.into_iter().collect()` (mod.rs 646) is
implementation-defined — Rust's `HashMap` hasher is randomly seeded per
map — so two runs need not agree on the vector's order. -/
theorem claim_C8_counterexample :
    (∀ l : List (PoxAddress × Nat), (id l).Perm l) ∧
    (∀ l : List (PoxAddress × Nat), l.reverse.Perm l) ∧
    calculate_paid_rewards id opsC8 ≠
      calculate_paid_rewards List.reverse opsC8 :=
  ⟨fun l => List.Perm.refl l, fun l => l.reverse_perm, by decide⟩

/-- C8 (amended): `calculate_paid_rewards` is deterministic up to the
order of the pox-payout vector — any two runs (any two `HashMap`
iteration orders) on equal operation lists give the same burn amount and
pox-payout vectors that are permutations of each other. -/
theorem claim_C8_amended_determinism
    (f g : List (PoxAddress × Nat) → List (PoxAddress × Nat))
    (ops : List BlockstackOperationType)
    (hf : ∀ l, (f l).Perm l) (hg : ∀ l, (g l).Perm l) :
    (calculate_paid_rewards f ops).burns =
        (calculate_paid_rewards g ops).burns ∧
      ((calculate_paid_rewards f ops).pox).Perm
        ((calculate_paid_rewards g ops).pox) := by
  unfold calculate_paid_rewards
  exact ⟨rfl, (hf _).trans (hg _).symm⟩

/-- Witness for C8 (amended): the two orders of the counterexample agree
on burns and are permutations of each other on the payout vector. -/
theorem claim_C8_amended_witness :
    (calculate_paid_rewards id opsC8).burns =
        (calculate_paid_rewards List.reverse opsC8).burns ∧
      ((calculate_paid_rewards id opsC8).pox).Perm
        ((calculate_paid_rewards List.reverse opsC8).pox) :=
  claim_C8_amended_determinism id List.reverse opsC8
    (fun l => List.Perm.refl l) (fun l => l.reverse_perm)

/-- The amount a single burnchain operation contributes to the total paid
out by `calculate_paid_rewards`: `len(commit_outs) * (burn_fee /
len(commit_outs))` for a `LeaderBlockCommit` with non-empty outputs,
nothing otherwise. -/
def opContribution : BlockstackOperationType → Nat
  | BlockstackOperationType.LeaderBlockCommit commit =>
      if commit.commit_outs.length = 0 then 0
      else commit.commit_outs.length *
        (commit.burn_fee / commit.commit_outs.length)
  | BlockstackOperationType.Other => 0

/-- The running total of a paid-rewards accumulator: burns plus the sum
of all mapped amounts. -/
def totalOf (st : List (PoxAddress × Nat) × Nat) : Nat :=
  st.2 + (st.1.map Prod.snd).sum

/-- Adding `amt` at a key raises the map's value sum by `amt`. -/
theorem hmAddOrInsert_sum (m : List (PoxAddress × Nat)) (a : PoxAddress)
    (amt : Nat) :
    ((hmAddOrInsert m a amt).map Prod.snd).sum =
      (m.map Prod.snd).sum + amt := by
  induction m with
  | nil => simp [hmAddOrInsert]
  | cons hd tl ih =>
      rcases hd with ⟨b, v⟩
      unfold hmAddOrInsert
      by_cases hb : b = a
      · simp [hb]
        omega
      · simp [hb, ih]
        omega

/-- One step of the operations fold raises the total by exactly the
operation's contribution. -/
theorem calcPaidRewardsStep_total (st : List (PoxAddress × Nat) × Nat)
    (op : BlockstackOperationType) :
    totalOf (calcPaidRewardsStep st op) = totalOf st + opContribution op := by
  cases op with
  | Other => rfl
  | LeaderBlockCommit commit =>
      unfold calcPaidRewardsStep opContribution
      dsimp only
      by_cases hlen : commit.commit_outs.length = 0
      · rw [if_pos hlen, if_pos hlen, Nat.add_zero]
      · rw [if_neg hlen, if_neg hlen]
        have hgen : ∀ (outs : List PoxAddress)
            (acc : List (PoxAddress × Nat) × Nat),
            totalOf (outs.foldl
              (fun acc2 addr =>
                if addr.is_burn then (acc2.1, acc2.2 +
                  commit.burn_fee / commit.commit_outs.length)
                else (hmAddOrInsert acc2.1 addr
                  (commit.burn_fee / commit.commit_outs.length), acc2.2))
              acc) =
            totalOf acc + outs.length *
              (commit.burn_fee / commit.commit_outs.length) := by
          intro outs
          induction outs with
          | nil => intro acc; simp
          | cons hd tl ih =>
              intro acc
              rw [List.foldl_cons, ih]
              by_cases hb : hd.is_burn
              · rw [if_pos hb]
                unfold totalOf
                dsimp only
                rw [List.length_cons, Nat.succ_mul]
                omega
              · rw [if_neg hb]
                unfold totalOf
                dsimp only
                rw [hmAddOrInsert_sum, List.length_cons, Nat.succ_mul]
                omega
        exact hgen commit.commit_outs st

/-- Folding the operations raises the total by the sum of all
contributions. -/
theorem foldl_calcPaidRewardsStep_total :
    ∀ (ops : List BlockstackOperationType)
      (st : List (PoxAddress × Nat) × Nat),
    totalOf (ops.foldl calcPaidRewardsStep st) =
      totalOf st + (ops.map opContribution).sum := by
  intro ops
  induction ops with
  | nil => intro st; simp
  | cons op rest ih =>
      intro st
      rw [List.foldl_cons, ih, calcPaidRewardsStep_total]
      simp
      omega

/-- C9: burns plus the sum of all pox payouts equals, over every
`LeaderBlockCommit` with non-empty `commit_outs`,
`len(commit_outs) * (burn_fee / len(commit_outs))` under truncating
division; other operations contribute nothing.  The equality holds for
every `HashMap` iteration order. -/
theorem claim_C9_paid_rewards_total
    (f : List (PoxAddress × Nat) → List (PoxAddress × Nat))
    (ops : List BlockstackOperationType) (hf : ∀ l, (f l).Perm l) :
    (calculate_paid_rewards f ops).burns +
        ((calculate_paid_rewards f ops).pox.map Prod.snd).sum =
      (ops.map opContribution).sum := by
  unfold calculate_paid_rewards
  dsimp only
  rw [((hf _).map Prod.snd).sum_eq]
  have htot := foldl_calcPaidRewardsStep_total ops ([], 0)
  unfold totalOf at htot
  simpa using htot

/-- Operation list for the C9 witness: a commit over a burn output and two
equal standard outputs (fee 10, truncating division), an inert operation,
and a commit with no outputs (contributing nothing). -/
def opsC9 : List BlockstackOperationType :=
  [BlockstackOperationType.LeaderBlockCommit
    (LeaderBlockCommitOp.mk
      [PoxAddress.Burn, PoxAddress.Standard 1, PoxAddress.Standard 1] 10),
   BlockstackOperationType.Other,
   BlockstackOperationType.LeaderBlockCommit (LeaderBlockCommitOp.mk [] 7)]

/-- Witness for C9: on the concrete list the total paid is 9 = 3 * (10/3)
— strictly less than the 17 units of burn fees. -/
theorem claim_C9_witness :
    (calculate_paid_rewards id opsC9).burns +
        ((calculate_paid_rewards id opsC9).pox.map Prod.snd).sum =
      (opsC9.map opContribution).sum :=
  claim_C9_paid_rewards_total id opsC9 (fun l => List.Perm.refl l)

/-! ## Claim about the highest-compatible-block search -/

/-- The descending enumeration `n-1, n-2, …, 0`. -/
def countdown : Nat → List Nat
  | 0 => []
  | n + 1 => n :: countdown n

/-- The qualification the spec states for a header: its affirmation map is
obtainable (no `InvalidPoxSortition`), compatible with the heaviest AM,
and its `(consensus hash, block hash)` matches the winning sortition
ancestor of the sortition tip at its burn height. -/
def headerQualifies (env : FindHighestEnv) (heaviest_am : AffirmationMap)
    (hdr : StacksHeaderInfo) : Bool :=
  match env.stacks_tip_am hdr.consensus_hash hdr.block_hash with
  | none => false
  | some am =>
      match env.is_block_compatible am heaviest_am with
      | none => false
      | some compat =>
          if !compat then false
          else
            match env.ancestor_snapshot hdr.burn_header_height with
            | none => false
            | some ancestor_sn =>
                if !ancestor_sn.sortition ∨
                    ancestor_sn.winning_stacks_block_hash ≠ hdr.block_hash ∨
                    ancestor_sn.consensus_hash ≠ hdr.consensus_hash then
                  false
                else true

/-- The scan order the spec states: heights descending from the maximum
header height; within each height, weights descending from the height's
maximum affirmation weight; within each (height, weight), the store's
header list order. -/
def scanCandidates (env : FindHighestEnv) : List StacksHeaderInfo :=
  (countdown (env.max_header_height + 1)).flatMap (fun h =>
    (countdown (env.max_affirmation_weight_at_height h + 1)).flatMap (fun w =>
      env.headers_at_height_and_weight h w))

/-- The tip triple a found header yields. -/
def headerTip (hdr : StacksHeaderInfo) : ConsensusHash × BlockHeaderHash × Nat :=
  (hdr.consensus_hash, hdr.block_hash, hdr.stacks_block_height)

/-- The header scan returns the first qualifying header of the list. -/
theorem scanHeaders_eq (env : FindHighestEnv) (heaviest_am : AffirmationMap)
    (l : List StacksHeaderInfo) :
    scanHeaders env heaviest_am l =
      (l.find? (headerQualifies env heaviest_am)).map headerTip := by
  induction l with
  | nil => rfl
  | cons hdr rest ih =>
      rw [scanHeaders]
      rcases h1 : env.stacks_tip_am hdr.consensus_hash hdr.block_hash
        with _ | am
      · rw [List.find?_cons_of_neg rest
          (by unfold headerQualifies; rw [h1]; simp)]
        exact ih
      · dsimp only
        rcases h2 : env.is_block_compatible am heaviest_am with _ | compat
        · rw [List.find?_cons_of_neg rest
            (by unfold headerQualifies; rw [h1]; dsimp only; rw [h2]; simp)]
          exact ih
        · dsimp only
          by_cases h3 : !compat
          · rw [if_pos h3]
            rw [List.find?_cons_of_neg rest
              (by unfold headerQualifies; rw [h1]; dsimp only; rw [h2];
                  dsimp only; rw [if_pos h3]; simp)]
            exact ih
          · rw [if_neg h3]
            rcases h4 : env.ancestor_snapshot hdr.burn_header_height
              with _ | sn
            · rw [List.find?_cons_of_neg rest
                (by unfold headerQualifies; rw [h1]; dsimp only; rw [h2];
                    dsimp only; rw [if_neg h3, h4]; simp)]
              exact ih
            · dsimp only
              by_cases h5 : !sn.sortition ∨
                  sn.winning_stacks_block_hash ≠ hdr.block_hash ∨
                  sn.consensus_hash ≠ hdr.consensus_hash
              · rw [if_pos h5]
                rw [List.find?_cons_of_neg rest
                  (by unfold headerQualifies; rw [h1]; dsimp only; rw [h2];
                      dsimp only; rw [if_neg h3, h4]; dsimp only;
                      rw [if_pos h5]; simp)]
                exact ih
              · rw [if_neg h5]
                rw [List.find?_cons_of_pos rest
                  (by unfold headerQualifies; rw [h1]; dsimp only; rw [h2];
                      dsimp only; rw [if_neg h3, h4]; dsimp only;
                      rw [if_neg h5])]
                rfl

/-- The weight loop scans headers weight-descending and returns the first
qualifying header. -/
theorem scanWeights_eq (env : FindHighestEnv) (heaviest_am : AffirmationMap)
    (height : Nat) : ∀ wfuel,
    scanWeights env heaviest_am height wfuel =
      (((countdown wfuel).flatMap
          (fun w => env.headers_at_height_and_weight height w)).find?
        (headerQualifies env heaviest_am)).map headerTip := by
  intro wfuel
  induction wfuel with
  | zero => rfl
  | succ w ih =>
      rw [scanWeights, scanHeaders_eq]
      have hcd : countdown (w + 1) = w :: countdown w := rfl
      rw [hcd, List.flatMap_cons, List.find?_append]
      rcases hf : (env.headers_at_height_and_weight height w).find?
          (headerQualifies env heaviest_am) with _ | r
      · rw [ih, Option.none_or]
        rfl
      · rfl

/-- The height loop scans heights descending and returns the first
qualifying header over the whole candidate order. -/
theorem scanHeights_eq (env : FindHighestEnv)
    (heaviest_am : AffirmationMap) : ∀ hfuel,
    scanHeights env heaviest_am hfuel =
      (((countdown hfuel).flatMap (fun h =>
          (countdown (env.max_affirmation_weight_at_height h + 1)).flatMap
            (fun w => env.headers_at_height_and_weight h w))).find?
        (headerQualifies env heaviest_am)).map headerTip := by
  intro hfuel
  induction hfuel with
  | zero => rfl
  | succ h ih =>
      rw [scanHeights, scanWeights_eq]
      have hcd : countdown (h + 1) = h :: countdown h := rfl
      rw [hcd, List.flatMap_cons, List.find?_append]
      rcases hf : ((countdown (env.max_affirmation_weight_at_height h
          + 1)).flatMap
            (fun w => env.headers_at_height_and_weight h w)).find?
          (headerQualifies env heaviest_am) with _ | r
      · rw [ih, Option.none_or]
        rfl
      · rfl

/-- C6: `find_highest_stacks_block_with_compatible_affirmation_map` scans
heights descending from the maximum header height and, within each
height, weights descending; it returns the tip triple of the first
header that qualifies (obtainable AM, compatible with the heaviest AM,
matching its winning sortition ancestor), and the genesis sentinel
`(FIRST_CONSENSUS_HASH, FIRST_HOST_BLOCK_HASH, 0)` when no header at any
height qualifies. -/
theorem claim_C6_find_highest (env : FindHighestEnv)
    (heaviest_am : AffirmationMap) :
    find_highest_stacks_block_with_compatible_affirmation_map env
        heaviest_am =
      (match (scanCandidates env).find? (headerQualifies env heaviest_am)
          with
       | some hdr => headerTip hdr
       | none =>
           (FIRST_BURNCHAIN_CONSENSUS_HASH, FIRST_STACKS_BLOCK_HASH, 0)) := by
  unfold find_highest_stacks_block_with_compatible_affirmation_map
    scanCandidates
  rw [scanHeights_eq]
  rcases hf : ((countdown (env.max_header_height + 1)).flatMap (fun h =>
      (countdown (env.max_affirmation_weight_at_height h + 1)).flatMap
        (fun w => env.headers_at_height_and_weight h w))).find?
      (headerQualifies env heaviest_am) with _ | r
  · rfl
  · rfl
